import Mathlib

/-!
# Verification of the `ppm` macro/template engine core

A shallow embedding of the `ppm` engine (`src/lib.rs`, `src/util.rs`,
`src/predefined_commands.rs`, `src/predefined_commands/for_loop.rs`,
`src/predefined_commands/tools.rs`) in Lean 4, together with theorems that
settle the specification claims about it.

Modelling conventions:
* Rust `String`/`&str` values are modelled as `List Char` (`LStr`).  Rust byte
  indices are modelled faithfully via `Char.utf8Size`; `byteLen` is `str::len`.
* `HashMap<String, String>` (the variable table) is modelled as an association
  list accessed only through `varsGet` / `varsInsert` / `varsRemove`.
* Fallible/partial behaviour is explicit: a Rust panic becomes
  `Except.error (EngErr.panic msg)`, and the unbounded recursion of
  `Engine::process` is modelled with a fuel parameter
  (`Except.error EngErr.outOfFuel` when exhausted).
* `debug_assert!` is compiled out in release builds; we model
  `absorb_new_issues` without the assertion and expose the asserted condition
  separately as `absorbAssertHolds`.
* The iterator combinators imported from `tlib::iter_tools`
  (`auto_escape`, `unescape`, `splitn`, `split_not_escaped`) are embedded from
  the copies the repository itself carries in `src/util.rs`
  (`AutoEscaped`, `Unescaped`, `SplitIter`, `SplitUnescString`).
* The predefined handlers that only perform I/O (`run`, `lsdir`, `re_sub`)
  are out-of-scope external collaborators per the specification and are not
  in the embedded registry; no claim depends on them.
-/

set_option maxRecDepth 20000

namespace Ppm

/-- Rust strings as lists of characters. -/
abbrev LStr := List Char

/-- `str::len` — the UTF-8 byte length of a string. -/
def byteLen (s : LStr) : Nat := (s.map Char.utf8Size).sum

/-- The prefix of `s` occupying the first `n` bytes (`&s[..n]` when `n` is a
character boundary; if `n` falls inside a character we stop before it, a case
the engine only reaches through `byteTakeExact`). -/
def byteTake : Nat → LStr → LStr
  | 0, _ => []
  | _, [] => []
  | n + 1, c :: cs =>
    if c.utf8Size ≤ n + 1 then c :: byteTake (n + 1 - c.utf8Size) cs else []

/-- The suffix of `s` after its first `n` bytes (`&s[n..]`). -/
def byteDrop : Nat → LStr → LStr
  | 0, s => s
  | _, [] => []
  | n + 1, c :: cs =>
    if c.utf8Size ≤ n + 1 then byteDrop (n + 1 - c.utf8Size) cs else c :: cs

/-- `&s[..n]` as the Rust slice operator: `some` prefix when byte index `n`
is a character boundary of `s`, `none` (a panic in Rust) otherwise. -/
def byteTakeExact : LStr → Nat → Option LStr
  | _, 0 => some []
  | [], _ + 1 => none
  | c :: cs, n + 1 =>
    if c.utf8Size ≤ n + 1 then
      (byteTakeExact cs (n + 1 - c.utf8Size)).map (c :: ·)
    else none

/-- `util.rs` `Span`: a `(start, len)` byte region of a string. -/
structure Span where
  start : Nat
  len : Nat
deriving DecidableEq

/-- `Span::end` — the position right after the end of the span. -/
def Span.endIdx (s : Span) : Nat := s.start + s.len

/-- `lib.rs` `Issue`: a non-fatal diagnostic. -/
structure Issue where
  id : String
  msg : LStr
  span : Span
deriving DecidableEq

/-- `util.rs` `FileLoc` (re-exported as `RowCol` by `lib.rs`). -/
structure FileLoc where
  row : Nat
  col : Nat
deriving DecidableEq

/-- `FileLoc::from_index`: row = newlines strictly before byte `i`,
col = distance back to the previous newline. -/
def fileLocFromIndex (i : Nat) (s : LStr) : FileLoc :=
  let before := byteTake i s
  { row := (before.filter (· = '\n')).length
    col := (before.reverse.takeWhile (· ≠ '\n')).length }

/-- `Display for FileLoc`: `"{row+1}:{col+1}"`. -/
def fileLocRender (l : FileLoc) : LStr :=
  (Nat.repr (l.row + 1)).data ++ [':'] ++ (Nat.repr (l.col + 1)).data

/-- `lib.rs` `absorb_new_issues` (release semantics, `debug_assert!` elided):
append each new issue with its span's start shifted forward by
`subspan.start`. -/
def absorbNewIssues (subspan : Span) (newIssues : List Issue) : List Issue :=
  newIssues.map fun e => { e with span := ⟨e.span.start + subspan.start, e.span.len⟩ }

/-- The condition of the `debug_assert!` inside `absorb_new_issues`:
every *shifted* span ends strictly before `subspan`'s end. -/
def absorbAssertHolds (subspan : Span) (newIssues : List Issue) : Bool :=
  (absorbNewIssues subspan newIssues).all fun e => decide (e.span.endIdx < subspan.endIdx)

/-- Modelled from the spec: `Span::relative_to(parent)` is called by
`CommandConfig::process_subbody` in `lib.rs` but its definition is not in the
sources (`src/util.rs` predates it); §3 of the spec: "reinterprets a span
computed over a substring as an absolute span inside the parent, failing if it
would exceed the parent's bounds". -/
def spanRelativeTo (s parent : Span) : Option Span :=
  if s.start + s.len ≤ parent.len then some ⟨parent.start + s.start, s.len⟩ else none

/-! ## Escape-aware iteration (`src/util.rs`, `tlib::iter_tools`) -/

/-- `AutoEscaped`: tag each character with an escaped flag; a `\` consumes the
next character and marks it escaped; a trailing `\` is emitted unescaped. -/
def autoEscape : LStr → List (Bool × Char)
  | [] => []
  | c :: rest =>
    if c = '\\' then
      match rest with
      | [] => [(false, '\\')]
      | d :: rest2 => (true, d) :: autoEscape rest2
    else (false, c) :: autoEscape rest

/-- One segment of `SplitIter`: the items before the first separator, and
either `some rest` (separator found, `rest` is what follows it) or `none`
(input exhausted). -/
def takeSeg (p : α → Bool) : List α → List α × Option (α × List α)
  | [] => ([], none)
  | x :: xs =>
    if p x then ([], some (x, xs))
    else
      let (s, r) := takeSeg p xs
      (x :: s, r)

/-- `SplitIter` with `max_len = None` and `keep_sep = false` (`split`):
the final segment is dropped when the input ends with a separator, and an
empty input yields no segments at all. -/
def splitIterList (p : α → Bool) : List α → List (List α)
  | [] => []
  | x :: xs =>
    if p x then [] :: splitIterList p xs
    else
      match splitIterList p xs with
      | [] => [[x]]
      | seg :: rest => (x :: seg) :: rest

/-- `SplitIter` with `max_len = Some n` (`splitn`): once `n - 1` segments have
been produced, the whole rest (possibly empty) becomes the final segment. -/
def splitnIterList (p : α → Bool) : Nat → List α → List (List α)
  | 0, l => splitIterList p l
  | 1, l => [l]
  | n + 2, l =>
    if l.isEmpty then []
    else
      let (s, r) := takeSeg p l
      s :: splitnIterList p (n + 1) (match r with | some (_, rest) => rest | none => [])

/-- `unescape(unescape_all_except(sep, '\\'))` applied to one segment:
an escaped `sep` loses its backslash, any other escaped character keeps it. -/
def unescapeAllExcept (sep : Char) (l : List (Bool × Char)) : LStr :=
  l.flatMap fun (esc, c) => if esc ∧ c ≠ sep then ['\\', c] else [c]

/-- `SplitUnescString::split_unescaped(sep, '\\', false)`
(tlib's `split_not_escaped`). -/
def splitNotEscaped (s : LStr) (sep : Char) : List LStr :=
  (splitIterList (fun (e, c) => !e && c = sep) (autoEscape s)).map (unescapeAllExcept sep)

/-- `SplitUnescString::splitn_unescaped(n, sep, '\\', false)`
(tlib's `splitn_not_escaped`). -/
def splitnNotEscaped (n : Nat) (s : LStr) (sep : Char) : List LStr :=
  (splitnIterList (fun (e, c) => !e && c = sep) n (autoEscape s)).map (unescapeAllExcept sep)

/-! ## The command parser (`lib.rs` `parse_commands`) -/

/-- `lib.rs` `SourceAtom`. -/
inductive SourceAtom where
  | Str (s : LStr)
  | Command (s : LStr)
deriving DecidableEq

/-- Outcome of one run of the inner scanning loop of `parse_commands` over the
current remainder.  `before`/`rest` are the text before the delimiter at byte
index `i` and after the two delimiter characters, mirroring
`split_off(i)` + `replace_range(0..2, "")` resp. `replace_range(i..i+2, "")`. -/
inductive ScanOut where
  | openSplit (i : Nat) (before rest : LStr)
  | unmatchedClose (i : Nat) (before rest : LStr)
  | closeSplit (i : Nat) (before rest : LStr)
  | atEnd (lvl : Nat)
deriving DecidableEq

/-- The inner loop of `parse_commands`: walk the auto-escaped characters with
one-pair lookahead, maintaining the nesting level.  `pos` is the byte index of
the next character, `acc` the (reversed) raw text consumed so far. -/
def scanCmd (lvl pos : Nat) (acc : LStr) : LStr → ScanOut
  | [] => .atEnd lvl
  | c :: rest =>
    if c = '\\' then
      match rest with
      | [] => .atEnd lvl
      | d :: rest2 => scanCmd lvl (pos + 1 + d.utf8Size) (d :: '\\' :: acc) rest2
    else if c = '(' ∧ rest.head? = some '%' then
      if lvl = 0 then .openSplit pos acc.reverse (rest.drop 1)
      else scanCmd (lvl + 1) (pos + 1) ('(' :: acc) rest
    else if c = '%' ∧ rest.head? = some ')' then
      if lvl = 0 then .unmatchedClose pos acc.reverse (rest.drop 1)
      else if lvl = 1 then .closeSplit pos acc.reverse (rest.drop 1)
      else scanCmd (lvl - 1) (pos + 1) ('%' :: acc) rest
    else scanCmd lvl (pos + c.utf8Size) (c :: acc) rest

/-- The issue pushed for an unmatched `%)`. -/
def unmatchedCloseIssue (i : Nat) : Issue :=
  ⟨"command:unmatched_closing_delim", "Unmatched '%)'".data, ⟨i, 2⟩⟩

/-- The issue pushed for an unterminated command. -/
def noEndIssue (start len : Nat) : Issue :=
  ⟨"command:no_end", "Command has no end".data, ⟨start, len⟩⟩

/-- The `'outer` loop of `parse_commands`, with explicit fuel; each iteration
appends atoms/issues in order.  `origLen` is the byte length of the string
`parse_commands` received. -/
def parseLoop (origLen : Nat) :
    Nat → Nat → LStr → List SourceAtom → List Issue →
    Option (List SourceAtom × List Issue)
  | 0, _, _, _, _ => none
  | fuel + 1, lvl, s, atoms, issues =>
    if s.isEmpty then some (atoms, issues)
    else
    match scanCmd lvl 0 [] s with
    | .openSplit _ before rest =>
      parseLoop origLen fuel 1 rest (atoms ++ [.Str before]) issues
    | .unmatchedClose i before rest =>
      parseLoop origLen fuel lvl (before ++ rest) atoms (issues ++ [unmatchedCloseIssue i])
    | .closeSplit _ before rest =>
      parseLoop origLen fuel 0 rest (atoms ++ [.Command before]) issues
    | .atEnd l =>
      if l = 0 then some (atoms ++ [.Str s], issues)
      else some (atoms ++ [.Command s],
                 issues ++ [noEndIssue (origLen - byteLen s) (byteLen s)])

/-- `lib.rs` `parse_commands`.  (`parseLoop` always succeeds with this much
fuel — theorem `parseLoop_total` below.) -/
def parseCommands (s : LStr) : List SourceAtom × List Issue :=
  (parseLoop (byteLen s) (s.length + 1) 0 s [] []).getD ([], [])

/-! ## Engine state, registry and command dispatch (`lib.rs` `Engine`) -/

/-- `Engine::is_invalid_command_char`: whitespace or any of `%(){}`.
(Rust's `char::is_whitespace` is Unicode White_Space; Lean's
`Char.isWhitespace` covers the ASCII subset, which is all the engine's own
syntax ever uses.) -/
def isInvalidCommandChar (c : Char) : Bool :=
  c.isWhitespace || c = '%' || c = '(' || c = ')' || c = '{' || c = '}'

/-- The variable table `Engine::vars` (a `HashMap<String, String>`),
as an association list accessed only through the three operations below. -/
abbrev Vars := List (LStr × LStr)

/-- `HashMap::get`. -/
def varsGet (vars : Vars) (k : LStr) : Option LStr :=
  match vars with
  | [] => none
  | (k', v) :: rest => if k' = k then some v else varsGet rest k

/-- `HashMap::remove` (the returned old value is read via `varsGet` first). -/
def varsRemove (vars : Vars) (k : LStr) : Vars :=
  match vars with
  | [] => []
  | (k', v) :: rest => if k' = k then varsRemove rest k else (k', v) :: varsRemove rest k

/-- `HashMap::insert`. -/
def varsInsert (vars : Vars) (k v : LStr) : Vars :=
  (k, v) :: varsRemove vars k

/-- The engine state a handler can mutate (`Engine::vars`; the registry is
never mutated during `process` and is threaded separately, `root_path` is
only used by the out-of-scope I/O handlers). -/
structure EngSt where
  vars : Vars
deriving DecidableEq

/-- The predefined command handlers whose behaviour is in scope
(`predefined_commands.rs` `get_all_handlers`, minus the I/O collaborators
`run`, `lsdir`, `re_sub`). -/
inductive HandlerId where
  | lit | eval | getVar | setVar | alt | forLoop | sortBy
deriving DecidableEq

/-- `Engine::commands`. -/
abbrev Registry := List (LStr × HandlerId)

/-- `HashMap::get` on the registry. -/
def regGet (reg : Registry) (k : LStr) : Option HandlerId :=
  match reg with
  | [] => none
  | (k', v) :: rest => if k' = k then some v else regGet rest k

/-- The registry built by `Engine::with_predefined_commands`
(`get_all_handlers`), restricted to the non-I/O handlers. -/
def defaultRegistry : Registry :=
  [("lit".data, .lit), ("eval".data, .eval), ("".data, .getVar),
   ("var".data, .getVar), ("let".data, .setVar), ("alt".data, .alt),
   ("sort_by".data, .sortBy), ("for".data, .forLoop)]

/-- How a run of the embedded engine can fail: a Rust panic, or fuel
exhaustion (the embedding's stand-in for unbounded recursion). -/
inductive EngErr where
  | panic (msg : String)
  | outOfFuel
deriving DecidableEq

/-- Result of `Engine::process` and of every handler: the output string, the
issues pushed (in push order), and the engine state after the call. -/
abbrev PRes := Except EngErr (LStr × List Issue × EngSt)

/-- The original byte length of an auto-escaped segment
(`c.len_utf8() + if esc { 1 } else { 0 }` summed). -/
def pairsOrigLen (l : List (Bool × Char)) : Nat :=
  (l.map fun (esc, c) => c.utf8Size + if esc then 1 else 0).sum

/-- The selective unescape applied to the head and body segments in
`Engine::process`: an escaped invalid-command character loses its backslash,
any other escaped character keeps it. -/
def unescapeCmd : List (Bool × Char) → LStr
  | [] => []
  | (esc, c) :: rest =>
    if esc ∧ ¬ isInvalidCommandChar c then '\\' :: c :: unescapeCmd rest
    else c :: unescapeCmd rest

/-- The `splitn(2, unescaped-whitespace, keep_sep = true)` in
`Engine::process`, specialised: `none` models the `spl.next().unwrap()` panic
on an empty command atom; otherwise the head segment, the separator's byte
length (0 when there is no separator) and the body segment. -/
def splitHeadBody (pairs : List (Bool × Char)) :
    Option (List (Bool × Char) × Nat × List (Bool × Char)) :=
  match pairs with
  | [] => none
  | _ =>
    let (h, r) := takeSeg (fun (e, c) => !e && c.isWhitespace) pairs
    match r with
    | some ((_, sep), rest) => some (h, sep.utf8Size, rest)
    | none => some (h, 0, [])

/-- Data of `lib.rs` `CommandConfig` that a handler receives (minus the
engine/issue handles, which the embedding threads explicitly). -/
structure CfgData where
  body : LStr
  bodySpan : Span
  cmdSpan : Span
deriving DecidableEq

/-- `CommandConfig::missing_args`. -/
def cfgMissingArgs (cfg : CfgData) (msg : LStr) : Issue :=
  ⟨"command:missing_args", msg, cfg.cmdSpan⟩

/-- `CommandConfig::invalid_args` (note: its span is `body_span`). -/
def cfgInvalidArgs (cfg : CfgData) (msg : LStr) : Issue :=
  ⟨"command:invalid_args", msg, cfg.bodySpan⟩

/-- The handler-resolution step of `Engine::process`
(`self.commands.get(&cmd).or_else(...)`): look the unescaped head up; if that
fails and the body is empty, fall back to the empty command name, the head
becoming the body and the body span becoming `Span::new(start, orig_cmd_len)`. -/
def resolveCommand (reg : Registry) (cmd body : LStr) (start origCmdLen : Nat)
    (bodySpan : Span) : Option (HandlerId × LStr × Span) :=
  match regGet reg cmd with
  | some h => some (h, body, bodySpan)
  | none =>
    if body = [] then
      match regGet reg [] with
      | some h => some (h, cmd, ⟨start, origCmdLen⟩)
      | none => none
    else none

/-- The `command:unknown` issue of `Engine::process`; `none` models the panic
of `&s[..10]` when byte 10 of the raw atom is not a character boundary. -/
def unknownIssue (orig : LStr) (start : Nat) (t : LStr) (cmdSpan : Span) : Option Issue :=
  let preview? := if byteLen t < 10 then some t else byteTakeExact t 10
  preview?.map fun preview =>
    ⟨"command:unknown",
     "invalid or unknown command at ".data
       ++ fileLocRender (fileLocFromIndex (start - 2) orig)
       ++ " (starting with `(%".data ++ preview ++ "`)".data,
     cmdSpan⟩

/-! ## `predefined_commands/tools.rs` -/

/-- `tools::find_seps`: byte positions of the `:` separators at nesting
level 0, with `\` escaping one character and `(%`/`%)` tracking the level
(`saturating_sub` on the way down). -/
def findSepsGo (pos : Nat) (esc : Bool) (lvl : Nat) : LStr → List Nat
  | [] => []
  | c :: rest =>
    if esc then findSepsGo (pos + c.utf8Size) false lvl rest
    else if c = '\\' then findSepsGo (pos + 1) true lvl rest
    else if c = '(' ∧ rest.head? = some '%' then findSepsGo (pos + 1) false (lvl + 1) rest
    else if c = '%' ∧ rest.head? = some ')' then findSepsGo (pos + 1) false (lvl - 1) rest
    else if lvl = 0 ∧ c = ':' then pos :: findSepsGo (pos + 1) false lvl rest
    else findSepsGo (pos + c.utf8Size) false lvl rest

/-- `tools::find_seps`. -/
def findSeps (s : LStr) : List Nat := findSepsGo 0 false 0 s

/-- `tools::split_args_with_len_inner`'s reversed loop over the separator
positions: `split_off(i + 1)` keeps the part after the colon, `pop` drops the
colon, and each part is paired with its pre-`map` byte length. -/
def splitArgsGo (map_ : LStr → LStr) (s : LStr) :
    List Nat → List (LStr × Nat) → List (LStr × Nat)
  | [], acc => (map_ s, byteLen s) :: acc
  | i :: seps, acc =>
    let right := byteDrop (i + 1) s
    splitArgsGo map_ (byteTake i s) seps ((map_ right, byteLen right) :: acc)

/-- `tools::unescpae_colons` [sic]: unescape `\:` and `\\`, keep every other
backslash. -/
def unescapeColons (s : LStr) : LStr :=
  (autoEscape s).flatMap fun (esc, c) =>
    if esc ∧ c ≠ ':' ∧ c ≠ '\\' then ['\\', c] else [c]

/-- `tools::split_args_with_len`. -/
def splitArgsWithLen (s : LStr) : List (LStr × Nat) :=
  splitArgsGo unescapeColons s (findSeps s).reverse []

/-- `tools::split_args_inner` with an arbitrary `map` (lengths dropped). -/
def splitArgsInner (map_ : LStr → LStr) (s : LStr) : List LStr :=
  (splitArgsGo map_ s (findSeps s).reverse []).map Prod.fst

/-- `tools::split_args`. -/
def splitArgs (s : LStr) : List LStr := splitArgsInner unescapeColons s

/-- `tools::splitn_args`: when more than `n` parts exist, the first `n - 1`
are colon-unescaped and the rest are re-joined raw with `:`; when at most `n`
exist they are returned raw (`identity` map). -/
def splitnArgs (n : Nat) (s : LStr) : List LStr :=
  if n = 0 then []
  else
    let spl := splitArgsInner id s
    if n < spl.length then
      (spl.take (n - 1)).map unescapeColons ++ [List.intercalate [':'] (spl.drop (n - 1))]
    else spl

/-! ## Handler context operations (`lib.rs` `CommandConfig`) -/

/-- The type of the re-entrant `process` handle a handler context closes
over (the engine's `process_new`, with the registry pre-applied). -/
abbrev Proc := EngSt → LStr → PRes

/-- `CommandConfig::process`: run the engine on `s`, absorbing the new issues
relative to `body_span`. -/
def ctxProcess (proc : Proc) (bodySpan : Span) (st : EngSt) (s : LStr) : PRes :=
  match proc st s with
  | .error e => .error e
  | .ok (res, is, st') => .ok (res, absorbNewIssues bodySpan is, st')

/-- `CommandConfig::process_subbody`: like `ctxProcess` but re-based at
`subspan.relative_to(body_span)`; when that fails the result is `none` and
(as in the source, where the `?` drops them) the issues are lost. -/
def ctxProcessSubbody (proc : Proc) (bodySpan : Span) (st : EngSt) (sub : LStr)
    (subspan : Span) : Except EngErr (Option LStr × List Issue × EngSt) :=
  match proc st sub with
  | .error e => .error e
  | .ok (res, is, st') =>
    match spanRelativeTo subspan bodySpan with
    | some sp => .ok (some res, absorbNewIssues sp is, st')
    | none => .ok (none, [], st')

/-! ## The simple predefined handlers (`predefined_commands.rs`) -/

/-- `get_var_handler`. -/
def getVarHandler (proc : Proc) (cfg : CfgData) (st : EngSt) : PRes :=
  match ctxProcess proc cfg.bodySpan st cfg.body with
  | .error e => .error e
  | .ok (key, is, st') =>
    match varsGet st'.vars key with
    | some v => .ok (v, is, st')
    | none => .ok ([], is ++ [cfgInvalidArgs cfg ("unknown variable: ".data ++ key)], st')

/-- `set_var_handler`. -/
def setVarHandler (proc : Proc) (cfg : CfgData) (st : EngSt) : PRes :=
  match ctxProcess proc cfg.bodySpan st cfg.body with
  | .error e => .error e
  | .ok (body, is, st') =>
    match splitNotEscaped body '=' with
    | [] => .error (.panic "called Option::unwrap() on a None value")
    | var :: rest =>
      .ok ([], is, { st' with vars := varsInsert st'.vars var (rest.headD []) })

/-- The loop of `fallback_handler`: the first non-empty alternative. -/
def firstNonEmpty : List LStr → LStr
  | [] => []
  | s :: rest => if s ≠ [] then s else firstNonEmpty rest

/-- `fallback_handler` (`alt`). -/
def altHandler (proc : Proc) (cfg : CfgData) (st : EngSt) : PRes :=
  match ctxProcess proc cfg.bodySpan st cfg.body with
  | .error e => .error e
  | .ok (body, is, st') => .ok (firstNonEmpty (splitNotEscaped body ':'), is, st')

/-! ## The for loop (`predefined_commands/for_loop.rs`) -/

/-- `for_loop.rs` `ForConfig`. -/
inductive ForConfig where
  | list (v : List LStr)
  | range (a b : Int)
deriving DecidableEq

/-- `str::split(' ')` (keeps empty segments, `"" → [""]`). -/
def splitChar (sep : Char) : LStr → List LStr
  | [] => [[]]
  | c :: cs =>
    let r := splitChar sep cs
    if c = sep then [] :: r
    else
      match r with
      | [] => [[c]]
      | h :: t => (c :: h) :: t

/-- `str::trim_start` (ASCII whitespace; see `isInvalidCommandChar`). -/
def trimStart (s : LStr) : LStr := s.dropWhile Char.isWhitespace

/-- All-digit decimal accumulation for `parseI128`. -/
def parseDigitsGo (acc : Nat) : LStr → Option Nat
  | [] => some acc
  | c :: rest => if c.isDigit then parseDigitsGo (acc * 10 + (c.toNat - 48)) rest else none

/-- At least one ASCII digit. -/
def parseDigits : LStr → Option Nat
  | [] => none
  | s => parseDigitsGo 0 s

/-- `<i128 as FromStr>::from_str`: optional sign, decimal digits, 128-bit
signed bounds. -/
def parseI128 (s : LStr) : Option Int :=
  match s with
  | '+' :: rest => (parseDigits rest).bind fun n =>
      if n ≤ 2 ^ 127 - 1 then some (n : Int) else none
  | '-' :: rest => (parseDigits rest).bind fun n =>
      if n ≤ 2 ^ 127 then some (-(n : Int)) else none
  | _ => (parseDigits s).bind fun n =>
      if n ≤ 2 ^ 127 - 1 then some (n : Int) else none

/-- `i128::to_string`. -/
def intToStr (i : Int) : LStr := (toString i).data

/-- The inclusive range `a..=b` (used with `a ≤ b`). -/
def intRangeIncl (a b : Int) : List Int :=
  (List.range ((b - a).toNat + 1)).map fun k => a + (k : Int)

/-- `ForConfig::new`.  The outer `Except` is a panic/fuel failure; the inner
`Except Issue` is the Rust `Result<(String, Self, String), Issue>`; the issue
list holds diagnostics pushed by the recursive `process` calls. -/
def forConfigNew (proc : Proc) (cfg : CfgData) (st : EngSt) :
    Except EngErr (Except Issue (LStr × ForConfig × LStr) × List Issue × EngSt) :=
  match splitArgsWithLen cfg.body with
  | [] => .error (.panic "called Option::unwrap() on a None value")
  | (headRaw, len) :: spl' =>
    let bodyPart := ((spl'.head?).getD ([], 0)).1
    match ctxProcessSubbody proc cfg.bodySpan st headRaw ⟨0, len⟩ with
    | .error e => .error e
    | .ok (none, _, _) => .error (.panic "called Option::unwrap() on a None value")
    | .ok (some head, is1, st1) =>
      let words := splitChar ' ' head
      let loopvar := words.headD []
      match words.get? 1 with
      | none => .ok (.error (cfgMissingArgs cfg "no repeat kind given".data), is1, st1)
      | some w =>
        if w = "in".data then
          let arg := trimStart (List.intercalate [' '] (words.drop 2))
          match ctxProcess proc cfg.bodySpan st1 arg with
          | .error e => .error e
          | .ok (arg', is2, st2) =>
            .ok (.ok (loopvar, .list (splitNotEscaped arg' ':'), bodyPart), is1 ++ is2, st2)
        else if w = "from".data then
          match words.get? 2 with
          | none => .ok (.error (cfgInvalidArgs cfg "no starting integer given".data), is1, st1)
          | some fw =>
            match ctxProcess proc cfg.bodySpan st1 fw with
            | .error e => .error e
            | .ok (fs, is2, st2) =>
              match parseI128 fs with
              | none =>
                .ok (.error (cfgInvalidArgs cfg ("invalid starting integer: ".data ++ fs)),
                     is1 ++ is2, st2)
              | some a =>
                match words.get? 3 with
                | none =>
                  .ok (.error (cfgInvalidArgs cfg "no range end given".data), is1 ++ is2, st2)
                | some tw =>
                  if tw ≠ "to".data then
                    .ok (.error (cfgInvalidArgs cfg ("invalid range end: ".data ++ tw)),
                         is1 ++ is2, st2)
                  else
                    match words.get? 4 with
                    | none =>
                      .ok (.error (cfgInvalidArgs cfg "no ending integer given".data),
                           is1 ++ is2, st2)
                    | some ew =>
                      match ctxProcess proc cfg.bodySpan st2 ew with
                      | .error e => .error e
                      | .ok (es, is3, st3) =>
                        match parseI128 es with
                        | none =>
                          .ok (.error
                                (cfgInvalidArgs cfg ("invalid ending integer: ".data ++ es)),
                               is1 ++ is2 ++ is3, st3)
                        | some b =>
                          .ok (.ok (loopvar, .range a b, bodyPart), is1 ++ is2 ++ is3, st3)
        else .ok (.error (cfgInvalidArgs cfg ("unknown repeat kind: ".data ++ w)), is1, st1)

/-- The iteration loop of the for handler: bind the loop variable to each
value, process the body, collect fragments and issues in order. -/
def forIter (proc : Proc) (bodySpan : Span) (loopvar body : LStr) :
    List LStr → EngSt → Except EngErr (List LStr × List Issue × EngSt)
  | [], st => .ok ([], [], st)
  | v :: vs, st =>
    let st' := { st with vars := varsInsert st.vars loopvar v }
    match ctxProcess proc bodySpan st' body with
    | .error e => .error e
    | .ok (res, is, st2) =>
      match forIter proc bodySpan loopvar body vs st2 with
      | .error e => .error e
      | .ok (ress, is2, st3) => .ok (res :: ress, is ++ is2, st3)

/-- The binding restoration at the end of the for handler
(`match prev_loopvar_val`). -/
def forRestore (prev : Option LStr) (loopvar : LStr) (st : EngSt) : EngSt :=
  match prev with
  | some x => { st with vars := varsInsert st.vars loopvar x }
  | none => { st with vars := varsRemove st.vars loopvar }

/-- `for_loop.rs` `handler`.  Note the `a > b` early return: it happens after
`vars.remove(&loopvar)` and skips the restoration step. -/
def forHandler (proc : Proc) (cfg : CfgData) (st : EngSt) : PRes :=
  match forConfigNew proc cfg st with
  | .error e => .error e
  | .ok (.error iss, is, st1) => .ok ([], is ++ [iss], st1)
  | .ok (.ok (loopvar, config, body), is, st1) =>
    let prev := varsGet st1.vars loopvar
    let st2 := { st1 with vars := varsRemove st1.vars loopvar }
    match config with
    | .range a b =>
      if a > b then .ok ([], is, st2)
      else
        match forIter proc cfg.bodySpan loopvar body ((intRangeIncl a b).map intToStr) st2 with
        | .error e => .error e
        | .ok (ress, is2, st3) => .ok (ress.flatten, is ++ is2, forRestore prev loopvar st3)
    | .list v =>
      match forIter proc cfg.bodySpan loopvar body v st2 with
      | .error e => .error e
      | .ok (ress, is2, st3) => .ok (ress.flatten, is ++ is2, forRestore prev loopvar st3)

/-! ## `sort_by` (`predefined_commands.rs` `sort_by_handler`) -/

/-- The sorting-order keyword table of `sort_by_handler`:
`some false` = ascending, `some true` = descending. -/
def parseOrder (s : LStr) : Option Bool :=
  if s = "+".data ∨ s = "asc".data ∨ s = "ascending".data ∨ s = "inc".data ∨
      s = "increasing".data then some false
  else if s = "-".data ∨ s = "desc".data ∨ s = "descending".data ∨ s = "dec".data ∨
      s = "decreasing".data then some true
  else none

/-- `Ord for String`: strict lexicographic comparison by scalar value
(UTF-8 byte order coincides with code-point order). -/
def lstrLt : LStr → LStr → Bool
  | [], [] => false
  | [], _ :: _ => true
  | _ :: _, [] => false
  | a :: as', b :: bs' =>
    if a < b then true
    else if b < a then false
    else lstrLt as' bs'

/-- Stable insertion: the new (originally earlier) element goes before every
element whose key is not strictly smaller. -/
def insertKeyed (x : LStr × LStr) : List (LStr × LStr) → List (LStr × LStr)
  | [] => [x]
  | y :: ys => if lstrLt y.2 x.2 then y :: insertKeyed x ys else x :: y :: ys

/-- `Vec::sort_by_key` on `(element, key)` pairs: a stable sort, ascending in
the key.  (Rust may invoke the key closure once per comparison; keys here are
precomputed once per element, in order — see `sortByComputeKeys`.) -/
def stableSortByKey : List (LStr × LStr) → List (LStr × LStr)
  | [] => []
  | x :: xs => insertKeyed x (stableSortByKey xs)

/-- The key computation of `sort_by_handler`: for each element in list order,
bind the sort variable to it and process the key expression. -/
def sortByComputeKeys (proc : Proc) (bodySpan : Span) (var expr : LStr) :
    List LStr → EngSt → Except EngErr (List (LStr × LStr) × List Issue × EngSt)
  | [], st => .ok ([], [], st)
  | v :: vs, st =>
    let st' := { st with vars := varsInsert st.vars var v }
    match ctxProcess proc bodySpan st' expr with
    | .error e => .error e
    | .ok (key, is, st2) =>
      match sortByComputeKeys proc bodySpan var expr vs st2 with
      | .error e => .error e
      | .ok (keyed, is2, st3) => .ok ((v, key) :: keyed, is ++ is2, st3)

/-- `join_reescape_colon`. -/
def joinReescapeColon (l : List LStr) : LStr :=
  List.intercalate [':'] (l.map fun s => s.flatMap fun c =>
    if c = ':' then ['\\', c] else [c])

/-- `sort_by_handler`. -/
def sortByHandler (proc : Proc) (cfg : CfgData) (st : EngSt) : PRes :=
  let args := splitnArgs 2 cfg.body
  match args.head? with
  | none => .error (.panic "called Option::unwrap() on a None value")
  | some firstArg =>
    match splitnNotEscaped 3 firstArg ' ' with
    | [] => .error (.panic "called Option::unwrap() on a None value")
    | var :: spl' =>
      match spl'.head? with
      | none =>
        .ok ((args.get? 1).getD [],
             [cfgInvalidArgs cfg "expected sorting order, got end of argument".data], st)
      | some ord =>
        match parseOrder ord with
        | none =>
          .ok ((args.get? 1).getD [],
               [cfgInvalidArgs cfg ("invalid sorting order: ".data ++ ord)], st)
        | some desc =>
          match spl'.get? 1 with
          | none =>
            .ok ((args.get? 1).getD [],
                 [cfgInvalidArgs cfg "no map expression provided".data], st)
          | some expr =>
            match args.get? 1 with
            | none => .ok ([], [cfgInvalidArgs cfg "no list to sort provided".data], st)
            | some listRaw =>
              match ctxProcess proc cfg.bodySpan st listRaw with
              | .error e => .error e
              | .ok (processed, is1, st1) =>
                let elems := splitNotEscaped processed ':'
                let origVar := varsGet st1.vars var
                let st2 := { st1 with vars := varsRemove st1.vars var }
                match sortByComputeKeys proc cfg.bodySpan var expr elems st2 with
                | .error e => .error e
                | .ok (keyed, is2, st3) =>
                  let sorted := stableSortByKey keyed
                  let sorted := if desc then sorted.reverse else sorted
                  let st4 :=
                    match origVar with
                    | some s => { st3 with vars := varsInsert st3.vars var s }
                    | none => st3
                  .ok (joinReescapeColon (sorted.map Prod.fst), is1 ++ is2, st4)

/-! ## The engine (`lib.rs` `Engine::process`) -/

/-- Dispatch to a resolved handler (`handler(args)` in `Engine::process`). -/
def runHandler (proc : Proc) (h : HandlerId) (cfg : CfgData) (st : EngSt) : PRes :=
  match h with
  | .lit => .ok (cfg.body, [], st)
  | .eval => ctxProcess proc cfg.bodySpan st cfg.body
  | .getVar => getVarHandler proc cfg st
  | .setVar => setVarHandler proc cfg st
  | .alt => altHandler proc cfg st
  | .forLoop => forHandler proc cfg st
  | .sortBy => sortByHandler proc cfg st

/-- The per-atom loop of `Engine::process`.  `start` tracks the byte offset of
the current atom in the original string `orig`; a command atom contributes
2 bytes for each delimiter around its raw text. -/
def processAtoms (proc : Proc) (reg : Registry) (orig : LStr) :
    List SourceAtom → Nat → EngSt → Except EngErr (List LStr × List Issue × EngSt)
  | [], _, st => .ok ([], [], st)
  | .Str t :: rest, start, st =>
    match processAtoms proc reg orig rest (start + byteLen t) st with
    | .error e => .error e
    | .ok (fs, is, st') => .ok (t :: fs, is, st')
  | .Command t :: rest, start0, st =>
    let start := start0 + 2
    match splitHeadBody (autoEscape t) with
    | none => .error (.panic "called Option::unwrap() on a None value")
    | some (headPairs, sepLen, bodyPairs) =>
      let cmd := unescapeCmd headPairs
      let origCmdLen := pairsOrigLen headPairs
      let body := unescapeCmd bodyPairs
      let origBodyLen := pairsOrigLen bodyPairs
      let cmdSpan : Span := ⟨start - 2, origCmdLen + sepLen + origBodyLen + 4⟩
      let bodySpan : Span := ⟨start + origCmdLen, origBodyLen⟩
      match resolveCommand reg cmd body start origCmdLen bodySpan with
      | some (h, body', bodySpan') =>
        match runHandler proc h ⟨body', bodySpan', cmdSpan⟩ st with
        | .error e => .error e
        | .ok (out, hIs, st1) =>
          match processAtoms proc reg orig rest (start + byteLen t + 2) st1 with
          | .error e => .error e
          | .ok (fs, is, st2) => .ok (out :: fs, hIs ++ is, st2)
      | none =>
        match unknownIssue orig start t cmdSpan with
        | none => .error (.panic "byte index 10 is not a char boundary")
        | some iss =>
          match processAtoms proc reg orig rest (start + byteLen t + 2) st with
          | .error e => .error e
          | .ok (fs, is, st2) => .ok (fs, iss :: is, st2)

/-- `Engine::process` / `Engine::process_new` (they differ only in who owns
the issue accumulator; the embedding always returns the issues pushed).
The fuel bounds the depth of handler re-entry. -/
def processE : Nat → Registry → EngSt → LStr → PRes
  | 0, _, _, _ => .error .outOfFuel
  | fuel + 1, reg, st, s =>
    let (atoms, parseIssues) := parseCommands s
    match processAtoms (processE fuel reg) reg s atoms 0 st with
    | .error e => .error e
    | .ok (frags, is, st') => .ok (frags.flatten, parseIssues ++ is, st')

/-- Top-level convenience: run the engine with the predefined registry. -/
def processFull (fuel : Nat) (vars : Vars) (s : String) : PRes :=
  processE fuel defaultRegistry ⟨vars⟩ s.data

/-- The net effect of `sort_by_handler`'s key loop on the variable table:
one insertion of the sort variable per element, in list order. -/
def foldVarsInsert (var : LStr) (elems : List LStr) (st : EngSt) : EngSt :=
  elems.foldl (fun s v => { s with vars := varsInsert s.vars var v }) st

/-- A character with no role in the engine's lexical syntax: neither the
escape character nor part of a delimiter pair. -/
def PlainChar (c : Char) : Prop :=
  c ≠ '\\' ∧ c ≠ '(' ∧ c ≠ '%' ∧ c ≠ ')'

instance : DecidablePred PlainChar := fun _ => by unfold PlainChar; infer_instance

instance {ε α : Type} [DecidableEq ε] [DecidableEq α] : DecidableEq (Except ε α) :=
  fun a b =>
    match a, b with
    | .ok x, .ok y =>
      if h : x = y then .isTrue (by rw [h])
      else .isFalse (by intro hc; cases hc; exact h rfl)
    | .error x, .error y =>
      if h : x = y then .isTrue (by rw [h])
      else .isFalse (by intro hc; cases hc; exact h rfl)
    | .ok _, .error _ => .isFalse (by intro hc; cases hc)
    | .error _, .ok _ => .isFalse (by intro hc; cases hc)

/-! ## Progress and termination of the parser (claim C9) -/

/-- Every non-final outcome of the scanning loop accounts for exactly the
consumed characters: the flushed text plus the two delimiter characters plus
the remainder make up the input (relative to the accumulator). -/
theorem scanCmd_length : ∀ (n : Nat) (s : LStr), s.length ≤ n → ∀ (lvl pos : Nat) (acc : LStr),
    (∀ i before rest, scanCmd lvl pos acc s = .openSplit i before rest →
      before.length + rest.length + 2 = acc.length + s.length) ∧
    (∀ i before rest, scanCmd lvl pos acc s = .unmatchedClose i before rest →
      before.length + rest.length + 2 = acc.length + s.length) ∧
    (∀ i before rest, scanCmd lvl pos acc s = .closeSplit i before rest →
      before.length + rest.length + 2 = acc.length + s.length) := by
  intro n
  induction n with
  | zero =>
    intro s hs lvl pos acc
    have hnil : s = [] := List.eq_nil_of_length_eq_zero (Nat.le_zero.mp hs)
    subst hnil
    refine ⟨?_, ?_, ?_⟩ <;> intro i before rest h <;> simp [scanCmd] at h
  | succ n ih =>
    intro s hs lvl pos acc
    match s with
    | [] => refine ⟨?_, ?_, ?_⟩ <;> intro i before rest h <;> simp [scanCmd] at h
    | c :: cs =>
      rw [List.length_cons] at hs
      by_cases hc : c = '\\'
      · subst hc
        match cs with
        | [] =>
          refine ⟨?_, ?_, ?_⟩ <;> intro i before rest h <;> simp [scanCmd] at h
        | d :: cs2 =>
          have H := ih cs2 (by simp at hs; omega) lvl (pos + 1 + d.utf8Size) (d :: '\\' :: acc)
          have hrw : scanCmd lvl pos acc ('\\' :: d :: cs2) =
              scanCmd lvl (pos + 1 + d.utf8Size) (d :: '\\' :: acc) cs2 := by
            simp [scanCmd]
          refine ⟨?_, ?_, ?_⟩ <;> intro i before rest h <;> rw [hrw] at h
          · have := H.1 i before rest h; simp at this ⊢; omega
          · have := H.2.1 i before rest h; simp at this ⊢; omega
          · have := H.2.2 i before rest h; simp at this ⊢; omega
      · by_cases hop : c = '(' ∧ cs.head? = some '%'
        · obtain ⟨hceq, hhd⟩ := hop
          subst hceq
          cases cs with
          | nil => simp at hhd
          | cons d cs2 =>
            have hd : d = '%' := by simpa using hhd
            subst hd
            by_cases hlvl : lvl = 0
            · subst hlvl
              have hrw : scanCmd 0 pos acc ('(' :: '%' :: cs2) =
                  .openSplit pos acc.reverse cs2 := by
                simp [scanCmd, hc]
              refine ⟨?_, ?_, ?_⟩ <;> intro i before rest h <;> rw [hrw] at h <;>
                cases h <;> simp <;> omega
            · have H := ih ('%' :: cs2) (by simp at hs ⊢; omega) (lvl + 1) (pos + 1) ('(' :: acc)
              have hrw : scanCmd lvl pos acc ('(' :: '%' :: cs2) =
                  scanCmd (lvl + 1) (pos + 1) ('(' :: acc) ('%' :: cs2) := by
                simp [scanCmd, hc, hlvl]
              refine ⟨?_, ?_, ?_⟩ <;> intro i before rest h <;> rw [hrw] at h
              · have := H.1 i before rest h; simp at this ⊢; omega
              · have := H.2.1 i before rest h; simp at this ⊢; omega
              · have := H.2.2 i before rest h; simp at this ⊢; omega
        · by_cases hcl : c = '%' ∧ cs.head? = some ')'
          · obtain ⟨hceq, hhd⟩ := hcl
            subst hceq
            cases cs with
            | nil => simp at hhd
            | cons d cs2 =>
              have hd : d = ')' := by simpa using hhd
              subst hd
              by_cases hlvl : lvl = 0
              · subst hlvl
                have hrw : scanCmd 0 pos acc ('%' :: ')' :: cs2) =
                    .unmatchedClose pos acc.reverse cs2 := by
                  simp [scanCmd, hc, hop]
                refine ⟨?_, ?_, ?_⟩ <;> intro i before rest h <;> rw [hrw] at h <;>
                  cases h <;> simp <;> omega
              · by_cases hlvl1 : lvl = 1
                · subst hlvl1
                  have hrw : scanCmd 1 pos acc ('%' :: ')' :: cs2) =
                      .closeSplit pos acc.reverse cs2 := by
                    simp [scanCmd, hc, hop]
                  refine ⟨?_, ?_, ?_⟩ <;> intro i before rest h <;> rw [hrw] at h <;>
                    cases h <;> simp <;> omega
                · have H := ih (')' :: cs2) (by simp at hs ⊢; omega) (lvl - 1) (pos + 1) ('%' :: acc)
                  have hrw : scanCmd lvl pos acc ('%' :: ')' :: cs2) =
                      scanCmd (lvl - 1) (pos + 1) ('%' :: acc) (')' :: cs2) := by
                    simp [scanCmd, hc, hop, hlvl, hlvl1]
                  refine ⟨?_, ?_, ?_⟩ <;> intro i before rest h <;> rw [hrw] at h
                  · have := H.1 i before rest h; simp at this ⊢; omega
                  · have := H.2.1 i before rest h; simp at this ⊢; omega
                  · have := H.2.2 i before rest h; simp at this ⊢; omega
          · have H := ih cs (by omega) lvl (pos + c.utf8Size) (c :: acc)
            have hrw : scanCmd lvl pos acc (c :: cs) =
                scanCmd lvl (pos + c.utf8Size) (c :: acc) cs := by
              rw [scanCmd.eq_def]
              simp only []
              rw [if_neg hc, if_neg hop, if_neg hcl]
            refine ⟨?_, ?_, ?_⟩ <;> intro i before rest h <;> rw [hrw] at h
            · have := H.1 i before rest h; simp at this ⊢; omega
            · have := H.2.1 i before rest h; simp at this ⊢; omega
            · have := H.2.2 i before rest h; simp at this ⊢; omega

/-! ## Plain text passes through unchanged -/

/-- Unfolding step of the scanner on a character with no lexical role. -/
theorem scanCmd_step_other (lvl pos : Nat) (acc : LStr) (c : Char) (cs : LStr)
    (h1 : ¬ c = '\\') (h2 : ¬(c = '(' ∧ cs.head? = some '%'))
    (h3 : ¬(c = '%' ∧ cs.head? = some ')')) :
    scanCmd lvl pos acc (c :: cs) = scanCmd lvl (pos + c.utf8Size) (c :: acc) cs := by
  rw [scanCmd.eq_def]
  simp only []
  rw [if_neg h1, if_neg h2, if_neg h3]

/-- Unfolding step of the scanner on an escaped pair. -/
theorem scanCmd_step_esc (lvl pos : Nat) (acc : LStr) (d : Char) (rest2 : LStr) :
    scanCmd lvl pos acc ('\\' :: d :: rest2) =
      scanCmd lvl (pos + 1 + d.utf8Size) (d :: '\\' :: acc) rest2 := by
  simp [scanCmd]

/-- The scanner walks over a plain prefix without acting on it. -/
theorem scanCmd_append_plain : ∀ (p : LStr), (∀ c ∈ p, PlainChar c) →
    ∀ (lvl pos : Nat) (acc t : LStr),
    scanCmd lvl pos acc (p ++ t) = scanCmd lvl (pos + byteLen p) (p.reverse ++ acc) t := by
  intro p
  induction p with
  | nil => intro _ lvl pos acc t; simp [byteLen]
  | cons c cs ih =>
    intro hp lvl pos acc t
    obtain ⟨h1, h2, h3, _⟩ := hp c (by simp)
    rw [List.cons_append,
      scanCmd_step_other lvl pos acc c (cs ++ t) h1 (fun hh => h2 hh.1) (fun hh => h3 hh.1)]
    rw [ih (fun d hd => hp d (by simp [hd])) lvl (pos + c.utf8Size) (c :: acc) t]
    congr 1
    · simp [byteLen]; omega
    · simp

/-- A fully plain string scans to the end without any delimiter action. -/
theorem scanCmd_plain (s : LStr) (hs : ∀ c ∈ s, PlainChar c) (lvl pos : Nat) (acc : LStr) :
    scanCmd lvl pos acc s = .atEnd lvl := by
  have := scanCmd_append_plain s hs lvl pos acc []
  simpa [scanCmd] using this

/-- A plain string parses to a single literal atom with no issues. -/
theorem parseCommands_plain (s : LStr) (hs : ∀ c ∈ s, PlainChar c) :
    parseCommands s = (if s = [] then [] else [.Str s], []) := by
  unfold parseCommands
  rcases s with _ | ⟨c, cs⟩
  · simp [parseLoop]
  · rw [parseLoop.eq_def]
    simp only []
    rw [scanCmd_plain _ hs]
    simp

/-- Processing a plain string returns it verbatim: no issues, no state
change (the round-trip property of the engine). -/
theorem processE_plain (fuel : Nat) (reg : Registry) (st : EngSt) (s : LStr)
    (hs : ∀ c ∈ s, PlainChar c) (hf : 0 < fuel) :
    processE fuel reg st s = .ok (s, [], st) := by
  rcases fuel with _ | fuel
  · omega
  · rw [processE.eq_def]
    simp only []
    rw [parseCommands_plain s hs]
    rcases s with _ | ⟨c, cs⟩
    · simp [processAtoms]
    · simp [processAtoms]



/-- The outer loop of `parse_commands` finishes within `length + 1`
iterations: each iteration removes at least one delimiter pair. -/
theorem parseLoop_isSome : ∀ (fuel origLen lvl : Nat) (s : LStr) (atoms : List SourceAtom)
    (issues : List Issue), s.length < fuel →
    (parseLoop origLen fuel lvl s atoms issues).isSome := by
  intro fuel
  induction fuel with
  | zero => intro origLen lvl s atoms issues h; omega
  | succ fuel ih =>
    intro origLen lvl s atoms issues h
    by_cases hs : s.isEmpty
    · simp [parseLoop, hs]
    · have hlen := scanCmd_length s.length s le_rfl lvl 0 []
      simp only [parseLoop, hs, Bool.false_eq_true, if_false]
      cases hsc : scanCmd lvl 0 [] s with
      | openSplit i b r =>
        have hb := hlen.1 i b r hsc
        simp only [List.length_nil, Nat.zero_add] at hb
        exact ih _ _ _ _ _ (by omega)
      | unmatchedClose i b r =>
        have hb := hlen.2.1 i b r hsc
        simp only [List.length_nil, Nat.zero_add] at hb
        exact ih _ _ _ _ _ (by simp; omega)
      | closeSplit i b r =>
        have hb := hlen.2.2 i b r hsc
        simp only [List.length_nil, Nat.zero_add] at hb
        exact ih _ _ _ _ _ (by omega)
      | atEnd l => by_cases hl : l = 0 <;> simp [hl]


/-! ## Byte-slice facts (the 10-byte preview of `command:unknown`) -/

/-- Every character occupies at least one byte. -/
theorem length_le_byteLen : ∀ s : LStr, s.length ≤ byteLen s := by
  intro s
  induction s with
  | nil => simp [byteLen]
  | cons c cs ih =>
    have := Char.utf8Size_pos c
    simp only [byteLen, List.map_cons, List.sum_cons, List.length_cons]
    simp only [byteLen] at ih
    omega

/-- A successful slice is a prefix of the string. -/
theorem byteTakeExact_take : ∀ (s : LStr) (n : Nat) (p : LStr),
    byteTakeExact s n = some p → s.take p.length = p := by
  intro s
  induction s with
  | nil =>
    intro n p h
    cases n with
    | zero => simp [byteTakeExact] at h; subst h; simp
    | succ n => simp [byteTakeExact] at h
  | cons c cs ih =>
    intro n p h
    cases n with
    | zero => simp [byteTakeExact] at h; subst h; simp
    | succ n =>
      simp only [byteTakeExact] at h
      by_cases hsz : c.utf8Size ≤ n + 1
      · rw [if_pos hsz] at h
        rcases hq : byteTakeExact cs (n + 1 - c.utf8Size) with _ | q
        · rw [hq] at h; simp at h
        · rw [hq] at h
          simp only [Option.map_some'] at h
          injection h with h
          subst h
          have := ih _ _ hq
          simp [List.take_succ_cons, this]
      · rw [if_neg hsz] at h; simp at h

/-- A successful slice occupies exactly the requested bytes. -/
theorem byteTakeExact_byteLen : ∀ (s : LStr) (n : Nat) (p : LStr),
    byteTakeExact s n = some p → byteLen p = n := by
  intro s
  induction s with
  | nil =>
    intro n p h
    cases n with
    | zero => simp [byteTakeExact] at h; subst h; simp [byteLen]
    | succ n => simp [byteTakeExact] at h
  | cons c cs ih =>
    intro n p h
    cases n with
    | zero => simp [byteTakeExact] at h; subst h; simp [byteLen]
    | succ n =>
      simp only [byteTakeExact] at h
      by_cases hsz : c.utf8Size ≤ n + 1
      · rw [if_pos hsz] at h
        rcases hq : byteTakeExact cs (n + 1 - c.utf8Size) with _ | q
        · rw [hq] at h; simp at h
        · rw [hq] at h
          simp only [Option.map_some'] at h
          injection h with h
          have hbq := ih _ _ hq
          subst h
          simp only [byteLen, List.map_cons, List.sum_cons]
          simp only [byteLen] at hbq
          omega
      · rw [if_neg hsz] at h; simp at h


/-! ## The stable key sort (`sort_by_handler`'s `sort_by_key`) -/

/-- Strict lexicographic order is irreflexive. -/
theorem lstrLt_irrefl : ∀ a : LStr, lstrLt a a = false := by
  intro a
  induction a with
  | nil => simp [lstrLt]
  | cons c cs ih => simp [lstrLt, ih]

/-- Strict lexicographic order is asymmetric. -/
theorem lstrLt_asymm : ∀ a b : LStr, lstrLt a b = true → lstrLt b a = false := by
  intro a
  induction a with
  | nil =>
    intro b h
    cases b with
    | nil => simp [lstrLt] at h
    | cons d ds => simp [lstrLt]
  | cons c cs ih =>
    intro b h
    cases b with
    | nil => simp [lstrLt] at h
    | cons d ds =>
      simp only [lstrLt] at h ⊢
      by_cases h1 : c < d
      · have h2 : ¬ d < c := lt_asymm h1
        simp [h1, h2]
      · by_cases h2 : d < c
        · simp [h1, h2] at h
        · simp only [h1, h2, if_false] at h ⊢
          exact ih ds h

/-- The complement of strict lexicographic order is transitive. -/
theorem lstrLt_le_trans : ∀ (a b c : LStr), lstrLt b a = false → lstrLt c b = false →
    lstrLt c a = false := by
  intro a
  induction a with
  | nil =>
    intro b c _ _
    cases c <;> simp [lstrLt]
  | cons x xs ih =>
    intro b c h1 h2
    cases b with
    | nil => simp [lstrLt] at h1
    | cons y ys =>
      cases c with
      | nil => simp [lstrLt] at h2
      | cons z zs =>
        simp only [lstrLt] at h1 h2 ⊢
        by_cases hyx : y < x
        · simp [hyx] at h1
        · by_cases hzy : z < y
          · simp [hzy] at h2
          · have hzx : ¬ z < x :=
              not_lt.mpr (le_trans (le_of_not_lt hyx) (le_of_not_lt hzy))
            simp only [hyx, if_false] at h1
            by_cases hxy : x < y
            · have hxz : x < z := lt_of_lt_of_le hxy (le_of_not_lt hzy)
              simp [hzx, hxz]
            · simp only [hxy, if_false] at h1
              simp only [hzy, if_false] at h2
              by_cases hyz : y < z
              · have hxz : x < z := lt_of_le_of_lt (le_of_not_lt hyx) hyz
                simp [hzx, hxz]
              · simp only [hyz, if_false] at h2
                by_cases hxz : x < z
                · simp [hzx, hxz]
                · simp only [hzx, hxz, if_false]
                  exact ih ys zs h1 h2

/-- Stable insertion only rearranges. -/
theorem mem_insertKeyed : ∀ (x z : LStr × LStr) (l : List (LStr × LStr)),
    z ∈ insertKeyed x l → z = x ∨ z ∈ l := by
  intro x z l
  induction l with
  | nil => intro h; simp [insertKeyed] at h; exact Or.inl h
  | cons y ys ih =>
    intro h
    simp only [insertKeyed] at h
    by_cases hlt : lstrLt y.2 x.2 = true
    · rw [if_pos hlt] at h
      rcases List.mem_cons.mp h with rfl | hmem
      · exact Or.inr (List.mem_cons_self _ _)
      · rcases ih hmem with hx | hys
        · exact Or.inl hx
        · exact Or.inr (List.mem_cons_of_mem _ hys)
    · rw [if_neg hlt] at h
      rcases List.mem_cons.mp h with rfl | hmem
      · exact Or.inl rfl
      · exact Or.inr hmem

/-- Stable insertion preserves ascending-by-key order. -/
theorem insertKeyed_pairwise : ∀ (x : LStr × LStr) (l : List (LStr × LStr)),
    List.Pairwise (fun u v => lstrLt v.2 u.2 = false) l →
    List.Pairwise (fun u v => lstrLt v.2 u.2 = false) (insertKeyed x l) := by
  intro x l
  induction l with
  | nil => intro _; simp [insertKeyed]
  | cons y ys ih =>
    intro hp
    rw [List.pairwise_cons] at hp
    obtain ⟨hy, hys⟩ := hp
    simp only [insertKeyed]
    by_cases hlt : lstrLt y.2 x.2 = true
    · rw [if_pos hlt, List.pairwise_cons]
      refine ⟨?_, ih hys⟩
      intro z hz
      rcases mem_insertKeyed x z ys hz with rfl | hzys
      · exact lstrLt_asymm _ _ hlt
      · exact hy z hzys
    · rw [if_neg hlt, List.pairwise_cons]
      have hxy : lstrLt y.2 x.2 = false := by
        cases hb : lstrLt y.2 x.2
        · rfl
        · exact absurd hb hlt
      refine ⟨?_, List.pairwise_cons.mpr ⟨hy, hys⟩⟩
      intro z hz
      rcases List.mem_cons.mp hz with rfl | hzys
      · exact hxy
      · exact lstrLt_le_trans _ _ _ hxy (hy z hzys)

/-- The key sort produces an ascending-by-key list. -/
theorem stableSortByKey_pairwise : ∀ l : List (LStr × LStr),
    List.Pairwise (fun u v => lstrLt v.2 u.2 = false) (stableSortByKey l) := by
  intro l
  induction l with
  | nil => simp [stableSortByKey]
  | cons x xs ih => exact insertKeyed_pairwise x _ ih

/-- Stability of one insertion: elements of any fixed key keep their
relative order (an inserted element only moves past strictly smaller keys). -/
theorem insertKeyed_filter : ∀ (k : LStr) (x : LStr × LStr) (l : List (LStr × LStr)),
    (insertKeyed x l).filter (fun u => decide (u.2 = k)) =
      (x :: l).filter (fun u => decide (u.2 = k)) := by
  intro k x l
  induction l with
  | nil => rfl
  | cons y ys ih =>
    simp only [insertKeyed]
    by_cases hlt : lstrLt y.2 x.2 = true
    · rw [if_pos hlt]
      have hnb : ¬(x.2 = k ∧ y.2 = k) := by
        rintro ⟨hxk, hyk⟩
        rw [hyk, hxk, lstrLt_irrefl] at hlt
        simp at hlt
      simp only [List.filter_cons]
      rw [ih]
      simp only [List.filter_cons]
      by_cases hxk : x.2 = k <;> by_cases hyk : y.2 = k
      · exact absurd ⟨hxk, hyk⟩ hnb
      · simp [hxk, hyk]
      · simp [hxk, hyk]
      · simp [hxk, hyk]
    · rw [if_neg hlt]

/-- Stability of the key sort: the subsequence of any fixed key is
unchanged. -/
theorem stableSortByKey_filter : ∀ (k : LStr) (l : List (LStr × LStr)),
    (stableSortByKey l).filter (fun u => decide (u.2 = k)) =
      l.filter (fun u => decide (u.2 = k)) := by
  intro k l
  induction l with
  | nil => rfl
  | cons x xs ih =>
    simp only [stableSortByKey]
    rw [insertKeyed_filter]
    simp only [List.filter_cons]
    rw [ih]


/-! ## The key-computation loop of `sort_by` on effect-free expressions -/

/-- `HashMap::insert` then `get` of the same key. -/
theorem varsGet_insert_self (vars : Vars) (k v : LStr) :
    varsGet (varsInsert vars k v) k = some v := by
  simp [varsInsert, varsGet]

/-- After at least one insertion the variable is bound. -/
theorem foldVarsInsert_isSome : ∀ (elems : List LStr) (var : LStr) (st : EngSt),
    elems ≠ [] → (varsGet (foldVarsInsert var elems st).vars var).isSome := by
  intro elems
  induction elems with
  | nil => intro var st h; exact absurd rfl h
  | cons v vs ih =>
    intro var st _
    rcases vs with _ | ⟨w, ws⟩
    · simp [foldVarsInsert, varsGet_insert_self]
    · exact ih var _ (by simp)

/-- Absorbing no issues appends nothing. -/
theorem absorbNewIssues_nil (subspan : Span) : absorbNewIssues subspan [] = [] := rfl

/-- On a plain (command-free) key expression, the key loop computes the
expression itself as every key, pushes no issue, and leaves the variable
table with the sort variable bound to the last element. -/
theorem sortByComputeKeys_plain (fuel : Nat) (reg : Registry) (bs : Span) (var expr : LStr)
    (hexpr : ∀ c ∈ expr, PlainChar c) (hf : 0 < fuel) :
    ∀ (elems : List LStr) (st : EngSt),
    sortByComputeKeys (processE fuel reg) bs var expr elems st =
      .ok (elems.map (fun v => (v, expr)), [], foldVarsInsert var elems st) := by
  intro elems
  induction elems with
  | nil => intro st; simp [sortByComputeKeys, foldVarsInsert]
  | cons v vs ih =>
    intro st
    simp only [sortByComputeKeys]
    rw [show ctxProcess (processE fuel reg) bs
          { st with vars := varsInsert st.vars var v } expr =
        .ok (expr, [], { st with vars := varsInsert st.vars var v }) from by
      unfold ctxProcess
      rw [processE_plain fuel reg _ expr hexpr hf]
      simp [absorbNewIssues_nil]]
    simp only [ih]
    simp [foldVarsInsert]



/-! ## The claims -/

/-- C1 (code bug): the claim says `Engine::process` never panics for any
input and configuration, with every error path producing an issue and a
best-effort fragment.  The code's `command:unknown` branch byte-slices the
raw atom at byte 10 (`&s[..10]`); when byte 10 falls inside a multi-byte
character — here the raw atom `foo aéééé`, 13 bytes with a boundary at 9
and 11 — the slice panics.  This theorem evaluates the embedded engine (the
predefined registry, no variables) at that input and obtains the panic
instead of a result. -/
theorem c1_process_panics :
    processFull 5 [] "(%foo aéééé%)" =
      .error (.panic "byte index 10 is not a char boundary") := by
  decide

/-- C2 (code bug): the claim (and the handler's own doc comment) says the
loop variable's binding is restored after the for handler in every mode,
including an empty range.  With `i` previously bound to `old` and the empty
range `from 2 to 1`, the handler removes `i` and then returns early,
skipping the restoration: afterwards `i` is absent from the table instead of
bound to `old`. -/
theorem c2_empty_range_binding_lost :
    processFull 5 [("i".data, "old".data)] "(%for i from 2 to 1:x%)" = .ok ([], [], ⟨[]⟩) ∧
    varsGet [("i".data, "old".data)] "i".data = some "old".data ∧
    varsGet ([] : Vars) "i".data = none := by
  decide

/-- C3 counterexample: in
`(%for i from 1 to 2:(%nope%)%)` the loop body `(%nope%)` is located at byte
offset 20 of the source (the substring `nope` at byte 22), but the issues
raised while reprocessing it are re-based by `cfg.process` with the whole
command body's span `(5, 22)` only, so they report span start 7 — not the
literal position 22. -/
theorem c3_subbody_span_counterexample :
    processFull 6 [] "(%for i from 1 to 2:(%nope%)%)" =
      .ok ([], [⟨"command:invalid_args", "unknown variable: nope".data, ⟨7, 4⟩⟩,
                ⟨"command:invalid_args", "unknown variable: nope".data, ⟨7, 4⟩⟩], ⟨[]⟩) ∧
    byteDrop 22 "(%for i from 1 to 2:(%nope%)%)".data = "nope%)%)".data ∧
    (7 : Nat) ≠ 22 := by
  decide

/-- C3 (amended): an issue raised while reprocessing an extracted sub-body
through the context's `process` operation is re-based by adding exactly the
command body span's start to its sub-body-relative position (for
`process_subbody`, additionally the supplied relative offset) — not to its
literal position in the original source.  Concretely: processing `(%nope%)`
alone yields the issue at span `(2, 4)`; inside the for loop above, whose
body span starts at 5, the same issue surfaces at `5 + 2 = 7`. -/
theorem c3_subbody_span_amended :
    processE 4 defaultRegistry ⟨[("i".data, "1".data)]⟩ "(%nope%)".data =
      .ok ([], [⟨"command:invalid_args", "unknown variable: nope".data, ⟨2, 4⟩⟩],
           ⟨[("i".data, "1".data)]⟩) ∧
    processFull 6 [] "(%for i from 1 to 2:(%nope%)%)" =
      .ok ([], [⟨"command:invalid_args", "unknown variable: nope".data, ⟨5 + 2, 4⟩⟩,
                ⟨"command:invalid_args", "unknown variable: nope".data, ⟨5 + 2, 4⟩⟩], ⟨[]⟩) := by
  decide

/-- C4 counterexample: the claim says exactly the escaping backslash is
removed from the final output.  Processing `a\(%b` yields `a\(%b` verbatim —
the escaped delimiter is (correctly) not treated as a delimiter, but the
backslash is *not* removed, so the output differs from the claimed `a(%b`. -/
theorem c4_escape_kept_counterexample :
    processFull 5 [] "a\\(%b" = .ok ("a\\(%b".data, [], ⟨[]⟩) ∧
    "a\\(%b".data ≠ "a(%b".data := by
  decide

/-- C4 (amended): a backslash-escaped delimiter inside literal text is not
treated as a delimiter — the whole text parses as one literal atom — but the
literal atom is emitted verbatim by `Engine::process`, escaping backslash
included: for any plain `a` and `b`, processing `a ++ "\(%" ++ b` returns the
input unchanged with no issues and no state change. -/
theorem c4_escape_kept_amended (fuel : Nat) (reg : Registry) (st : EngSt) (a b : LStr)
    (ha : ∀ c ∈ a, PlainChar c) (hb : ∀ c ∈ b, PlainChar c) :
    processE (fuel + 1) reg st (a ++ '\\' :: '(' :: '%' :: b) =
      .ok (a ++ '\\' :: '(' :: '%' :: b, [], st) := by
  have hbhd : b.head? ≠ some ')' := by
    rcases b with _ | ⟨d, bs⟩
    · simp
    · obtain ⟨_, _, _, h4⟩ := hb d (by simp)
      simpa using h4
  have hscan : scanCmd 0 0 [] (a ++ '\\' :: '(' :: '%' :: b) = .atEnd 0 := by
    rw [scanCmd_append_plain a ha, scanCmd_step_esc,
      scanCmd_step_other _ _ _ _ _ (by decide) (fun hh => absurd hh.1 (by decide))
        (fun hh => hbhd hh.2),
      scanCmd_plain b hb]
  have hne : a ++ '\\' :: '(' :: '%' :: b ≠ [] := by simp
  have hpc : parseCommands (a ++ '\\' :: '(' :: '%' :: b) =
      ([.Str (a ++ '\\' :: '(' :: '%' :: b)], []) := by
    unfold parseCommands
    rw [parseLoop.eq_def]
    simp only []
    rw [hscan]
    simp [List.isEmpty_iff, hne]
  rw [processE.eq_def]
  simp only []
  rw [hpc]
  simp [processAtoms]

/-- Witness for `c4_escape_kept_amended` at `a\(%b`. -/
theorem c4_escape_kept_amended_witness :
    processE 1 defaultRegistry ⟨[]⟩ ("a".data ++ '\\' :: '(' :: '%' :: "b".data) =
      .ok ("a".data ++ '\\' :: '(' :: '%' :: "b".data, [], ⟨[]⟩) :=
  c4_escape_kept_amended 0 defaultRegistry ⟨[]⟩ "a".data "b".data (by decide) (by decide)

/-- C5 counterexample: the claim says that when the head lookup fails with an
empty body, the *entire raw atom* is reinterpreted as the empty-string
command's body.  For the raw atom `x\%` the engine actually hands the
*unescaped head* `x%` to the fallback handler, not the raw atom: with the
variable `x%` bound to `A`, processing `(%x\%%)` outputs `A` with no issue
(under the claim, the body would be `x\%`, an unknown variable). -/
theorem c5_resolution_counterexample :
    splitHeadBody (autoEscape "x\\%".data) = some ([(false, 'x'), (true, '%')], 0, []) ∧
    unescapeCmd [(false, 'x'), (true, '%')] = "x%".data ∧
    resolveCommand defaultRegistry "x%".data [] 2 3 ⟨5, 0⟩ =
      some (.getVar, "x%".data, ⟨2, 3⟩) ∧
    "x%".data ≠ "x\\%".data ∧
    processFull 5 [("x%".data, "A".data)] "(%x\\%%)" =
      .ok ("A".data, [], ⟨[("x%".data, "A".data)]⟩) := by
  decide

/-- C5 (amended): handler resolution first looks up the unescaped head; only
if that fails and the body is empty is the empty-string command consulted, in
which case the *unescaped head* (not the raw atom) becomes that command's
body, with the body span repositioned to the head.  If neither resolves,
exactly one `command:unknown` issue is emitted, the atom contributes no
output fragment and no state change, and — provided the 10-byte cut is a
character boundary (see C1 for the panic otherwise) — the message carries
the computed row/column and a preview that is a prefix of the raw atom of at
most 10 characters. -/
theorem c5_resolution_amended :
    (∀ (reg : Registry) (cmd body : LStr) (start origCmdLen : Nat) (bodySpan : Span)
        (h : HandlerId), regGet reg cmd = some h →
        resolveCommand reg cmd body start origCmdLen bodySpan = some (h, body, bodySpan)) ∧
    (∀ (reg : Registry) (cmd : LStr) (start origCmdLen : Nat) (bodySpan : Span)
        (h : HandlerId), regGet reg cmd = none → regGet reg [] = some h →
        resolveCommand reg cmd [] start origCmdLen bodySpan = some (h, cmd, ⟨start, origCmdLen⟩)) ∧
    (∀ (reg : Registry) (cmd body : LStr) (start origCmdLen : Nat) (bodySpan : Span),
        regGet reg cmd = none → (body ≠ [] ∨ regGet reg [] = none) →
        resolveCommand reg cmd body start origCmdLen bodySpan = none) ∧
    (∀ (proc : Proc) (reg : Registry) (orig t : LStr) (start : Nat) (st : EngSt)
        (hp : List (Bool × Char)) (sl : Nat) (bp : List (Bool × Char)) (preview : LStr),
        splitHeadBody (autoEscape t) = some (hp, sl, bp) →
        resolveCommand reg (unescapeCmd hp) (unescapeCmd bp) (start + 2) (pairsOrigLen hp)
          ⟨start + 2 + pairsOrigLen hp, pairsOrigLen bp⟩ = none →
        (if byteLen t < 10 then some t else byteTakeExact t 10) = some preview →
        processAtoms proc reg orig [.Command t] start st =
          .ok ([], [⟨"command:unknown",
                     "invalid or unknown command at ".data
                       ++ fileLocRender (fileLocFromIndex start orig)
                       ++ " (starting with `(%".data ++ preview ++ "`)".data,
                     ⟨start, pairsOrigLen hp + sl + pairsOrigLen bp + 4⟩⟩], st) ∧
        preview.length ≤ 10 ∧ t.take preview.length = preview) := by
  refine ⟨?_, ?_, ?_, ?_⟩
  · intro reg cmd body start origCmdLen bodySpan h hget
    unfold resolveCommand
    rw [hget]
  · intro reg cmd start origCmdLen bodySpan h hget hempty
    unfold resolveCommand
    rw [hget]
    simp [hempty]
  · intro reg cmd body start origCmdLen bodySpan hget hor
    unfold resolveCommand
    rw [hget]
    rcases hor with hne | hnone
    · simp [hne]
    · by_cases hb : body = []
      · simp [hb, hnone]
      · simp [hb]
  · intro proc reg orig t start st hp sl bp preview hsplit hres hprev
    have hprevlen : preview.length ≤ 10 ∧ t.take preview.length = preview := by
      by_cases hlen : byteLen t < 10
      · rw [if_pos hlen] at hprev
        injection hprev with hprev
        subst hprev
        refine ⟨le_trans (length_le_byteLen t) (by omega), by simp⟩
      · rw [if_neg hlen] at hprev
        have h10 : byteLen preview = 10 := byteTakeExact_byteLen t 10 preview hprev
        exact ⟨by have := length_le_byteLen preview; omega,
               byteTakeExact_take t 10 preview hprev⟩
    refine ⟨?_, hprevlen.1, hprevlen.2⟩
    unfold processAtoms
    rw [hsplit]
    simp only []
    rw [hres]
    simp only []
    unfold unknownIssue
    rw [hprev]
    simp only [Option.map_some']
    simp [processAtoms, Nat.add_sub_cancel]

/-- Witness for `c5_resolution_amended`: `lit` resolves directly; head `zz`
with empty body falls back to the empty command; head `zz` with body `y`
resolves to nothing and yields exactly the one `command:unknown` issue. -/
theorem c5_resolution_amended_witness :
    resolveCommand defaultRegistry "lit".data "x".data 2 3 ⟨5, 1⟩ =
      some (.lit, "x".data, ⟨5, 1⟩) ∧
    resolveCommand defaultRegistry "zz".data [] 2 2 ⟨4, 0⟩ =
      some (.getVar, "zz".data, ⟨2, 2⟩) ∧
    resolveCommand defaultRegistry "zz".data "y".data 2 2 ⟨4, 1⟩ = none ∧
    (processAtoms (processE 1 defaultRegistry) defaultRegistry "(%zz y%)".data
        [.Command "zz y".data] 0 ⟨[]⟩ =
      .ok ([], [⟨"command:unknown",
                 "invalid or unknown command at ".data
                   ++ fileLocRender (fileLocFromIndex 0 "(%zz y%)".data)
                   ++ " (starting with `(%".data ++ "zz y".data ++ "`)".data,
                 ⟨0, pairsOrigLen [(false, 'z'), (false, 'z')] + 1
                      + pairsOrigLen [(false, 'y')] + 4⟩⟩], ⟨[]⟩) ∧
      ("zz y".data).length ≤ 10 ∧ ("zz y".data).take ("zz y".data).length = "zz y".data) :=
  ⟨c5_resolution_amended.1 defaultRegistry "lit".data "x".data 2 3 ⟨5, 1⟩ .lit (by decide),
   c5_resolution_amended.2.1 defaultRegistry "zz".data 2 2 ⟨4, 0⟩ .getVar
     (by decide) (by decide),
   c5_resolution_amended.2.2.1 defaultRegistry "zz".data "y".data 2 2 ⟨4, 1⟩
     (by decide) (Or.inl (by decide)),
   c5_resolution_amended.2.2.2 (processE 1 defaultRegistry) defaultRegistry
     "(%zz y%)".data "zz y".data 0 ⟨[]⟩ [(false, 'z'), (false, 'z')] 1 [(false, 'y')]
     "zz y".data (by decide) (by decide) (by decide)⟩

/-- C6 (confirmed): a for-loop invocation whose parsed configuration is an
empty range (`from > to`) or an empty list returns the empty string and
pushes no issue beyond those already produced while parsing the
configuration itself: the loop execution contributes no output and no
issue.  (In the empty-range case the early return also skips the binding
restoration — claim C2.) -/
theorem c6_empty_loop :
    (∀ (proc : Proc) (cfg : CfgData) (st : EngSt) (v body : LStr) (a b : Int)
        (is : List Issue) (st1 : EngSt),
        forConfigNew proc cfg st = .ok (.ok (v, .range a b, body), is, st1) → a > b →
        forHandler proc cfg st = .ok ([], is, { st1 with vars := varsRemove st1.vars v })) ∧
    (∀ (proc : Proc) (cfg : CfgData) (st : EngSt) (v body : LStr)
        (is : List Issue) (st1 : EngSt),
        forConfigNew proc cfg st = .ok (.ok (v, .list [], body), is, st1) →
        forHandler proc cfg st =
          .ok ([], is, forRestore (varsGet st1.vars v) v
                { st1 with vars := varsRemove st1.vars v })) := by
  constructor
  · intro proc cfg st v body a b is st1 hcfg hab
    unfold forHandler
    rw [hcfg]
    simp [hab]
  · intro proc cfg st v body is st1 hcfg
    unfold forHandler
    rw [hcfg]
    simp [forIter]

/-- Witness for `c6_empty_loop`: `(%for i from 2 to 1:x%)` (empty range,
previously bound variable) and `(%for i in :x%)` (empty list). -/
theorem c6_empty_loop_witness :
    forHandler (processE 3 defaultRegistry) ⟨"i from 2 to 1:x".data, ⟨5, 15⟩, ⟨0, 22⟩⟩
        ⟨[("i".data, "old".data)]⟩ = .ok ([], [], ⟨[]⟩) ∧
    forHandler (processE 3 defaultRegistry) ⟨"i in :x".data, ⟨5, 10⟩, ⟨0, 14⟩⟩ ⟨[]⟩ =
      .ok ([], [], ⟨[]⟩) :=
  ⟨c6_empty_loop.1 (processE 3 defaultRegistry) ⟨"i from 2 to 1:x".data, ⟨5, 15⟩, ⟨0, 22⟩⟩
      ⟨[("i".data, "old".data)]⟩ "i".data "x".data 2 1 [] ⟨[("i".data, "old".data)]⟩
      (by decide) (by decide),
   c6_empty_loop.2 (processE 3 defaultRegistry) ⟨"i in :x".data, ⟨5, 10⟩, ⟨0, 14⟩⟩ ⟨[]⟩
      "i".data "x".data [] ⟨[]⟩ (by decide)⟩

/-- C7 counterexample: the claim asserts the absorb-time assertion holds for
every call.  Processing the unterminated inner command `(%zz y` produces a
`command:unknown` issue whose `cmd_span` `(0, 8)` overshoots the 6-byte
string (the span length counts both delimiters, but the closing one is
missing); when `(%eval \(%zz y%)` absorbs those issues against the body span
`(6, 7)`, the shifted span ends at 14 > 13 = the subspan's end, so
`absorbAssertHolds` is false — this exact call is made by the engine (the
final issue list shows the shifted `(6, 8)` span). -/
theorem c7_absorb_counterexample :
    processE 5 defaultRegistry ⟨[]⟩ "(%zz y".data =
      .ok ([], [⟨"command:no_end", "Command has no end".data, ⟨2, 4⟩⟩,
                ⟨"command:unknown",
                 "invalid or unknown command at 1:1 (starting with `(%zz y`)".data, ⟨0, 8⟩⟩],
           ⟨[]⟩) ∧
    absorbAssertHolds ⟨6, 7⟩
      [⟨"command:no_end", "Command has no end".data, ⟨2, 4⟩⟩,
       ⟨"command:unknown",
        "invalid or unknown command at 1:1 (starting with `(%zz y`)".data, ⟨0, 8⟩⟩] = false ∧
    processFull 6 [] "(%eval \\(%zz y%)" =
      .ok ([], [⟨"command:no_end", "Command has no end".data, ⟨8, 4⟩⟩,
                ⟨"command:unknown",
                 "invalid or unknown command at 1:1 (starting with `(%zz y`)".data, ⟨6, 8⟩⟩],
           ⟨[]⟩) := by
  decide

/-- C7 (amended): `absorb_new_issues` appends each new issue with its span's
start shifted forward by exactly `subspan.start`, all other fields (id,
message, span length) unchanged; the asserted condition — every shifted span
ending strictly before the subspan's end — is only a `debug_assert!` and does
*not* hold for every call the engine makes (see the counterexample). -/
theorem c7_absorb_amended : ∀ (subspan : Span) (newIssues : List Issue),
    (absorbNewIssues subspan newIssues).length = newIssues.length ∧
    ∀ k : Nat, (absorbNewIssues subspan newIssues)[k]? =
      (newIssues[k]?).map fun e => ⟨e.id, e.msg, ⟨e.span.start + subspan.start, e.span.len⟩⟩ := by
  intro subspan newIssues
  refine ⟨by simp [absorbNewIssues], fun k => ?_⟩
  simp [absorbNewIssues, List.getElem?_map]

/-- C8 counterexample: the claim says equal-key elements keep their original
relative order also in descending mode.  `(%sort_by v - k:a:b%)` gives both
elements the constant key `k`; the descending output is `b:a`, the reverse
of their original order `a:b`. -/
theorem c8_stable_sort_counterexample :
    processFull 6 [] "(%sort_by v - k:a:b%)" = .ok ("b:a".data, [], ⟨[("v".data, "b".data)]⟩) ∧
    splitNotEscaped "a:b".data ':' = ["a".data, "b".data] ∧
    "b:a".data ≠ "a:b".data := by
  decide

/-- C8 (amended): the key sort used by `sort_by_handler` is a stable
ascending sort — the result is ascending by key and, for every key value,
the elements carrying that key appear in their original relative order; the
descending mode is implemented as this stable ascending sort followed by a
full reversal, so there equal-key elements appear in *reverse* original
order. -/
theorem c8_stable_sort_amended : ∀ l : List (LStr × LStr),
    List.Pairwise (fun u v => lstrLt v.2 u.2 = false) (stableSortByKey l) ∧
    ∀ k : LStr, (stableSortByKey l).filter (fun u => decide (u.2 = k)) =
      l.filter (fun u => decide (u.2 = k)) :=
  fun l => ⟨stableSortByKey_pairwise l, fun k => stableSortByKey_filter k l⟩

/-- C9 (confirmed): `parse_commands` always makes forward progress — every
outcome of the scan that continues the outer loop accounts for the two
delimiter characters it removes, so the remaining string is strictly
shorter — and therefore the loop completes within `length + 1` iterations
for every input. -/
theorem c9_parser_terminates :
    (∀ (lvl : Nat) (s : LStr) (i : Nat) (before rest : LStr),
        scanCmd lvl 0 [] s = .openSplit i before rest →
        before.length + rest.length + 2 = s.length ∧ rest.length < s.length) ∧
    (∀ (lvl : Nat) (s : LStr) (i : Nat) (before rest : LStr),
        scanCmd lvl 0 [] s = .unmatchedClose i before rest →
        before.length + rest.length + 2 = s.length ∧ (before ++ rest).length < s.length) ∧
    (∀ (lvl : Nat) (s : LStr) (i : Nat) (before rest : LStr),
        scanCmd lvl 0 [] s = .closeSplit i before rest →
        before.length + rest.length + 2 = s.length ∧ rest.length < s.length) ∧
    (∀ s : LStr, (parseLoop (byteLen s) (s.length + 1) 0 s [] []).isSome) := by
  refine ⟨?_, ?_, ?_, fun s => parseLoop_isSome _ _ _ _ _ _ (by omega)⟩ <;>
    intro lvl s i before rest h
  · have := (scanCmd_length s.length s le_rfl lvl 0 []).1 i before rest h
    simp only [List.length_nil, Nat.zero_add] at this
    omega
  · have := (scanCmd_length s.length s le_rfl lvl 0 []).2.1 i before rest h
    simp only [List.length_nil, Nat.zero_add] at this
    simp only [List.length_append]
    omega
  · have := (scanCmd_length s.length s le_rfl lvl 0 []).2.2 i before rest h
    simp only [List.length_nil, Nat.zero_add] at this
    omega

/-- Witness for `c9_parser_terminates` at `(%x%)`. -/
theorem c9_parser_terminates_witness :
    (([] : LStr).length + ("x%)".data).length + 2 = ("(%x%)".data).length ∧
      ("x%)".data).length < ("(%x%)".data).length) ∧
    (parseLoop (byteLen "(%x%)".data) (("(%x%)".data).length + 1) 0 "(%x%)".data [] []).isSome :=
  ⟨c9_parser_terminates.1 0 "(%x%)".data 0 [] "x%)".data (by decide),
   c9_parser_terminates.2.2.2 "(%x%)".data⟩

/-- C10 counterexample: the claim says that with the sort variable unbound
before the call and at least two list elements, the variable is always bound
afterwards.  When the key expression itself unbinds the variable — here an
empty-range for loop over the same name `v`, which removes it and skips the
restoration (claim C2) — the variable ends up unbound even though the list
has two elements. -/
theorem c10_sort_var_counterexample :
    processFull 8 [] "(%sort_by v - (%for v from 2 to 1:z%):a:b%)" =
      .ok ("b:a".data, [], ⟨[]⟩) ∧
    splitNotEscaped "a:b".data ':' = ["a".data, "b".data] ∧
    varsGet ([] : Vars) "v".data = none := by
  decide

/-- C10 (amended): the handler itself never removes the binding it creates
during key computation — if the sort variable was unbound before the call,
the processed list has at least two elements, and the key expression is
plain (command-free, so its processing cannot touch the variable table),
then after `sort_by_handler` returns the variable is still bound (to the
last list element), no issue is pushed, and the output is the stable
ascending sort (reversed when descending). -/
theorem c10_sort_var_amended (fuel : Nat) (reg : Registry) (cfg : CfgData) (st : EngSt)
    (firstArg listRaw var ord expr : LStr) (desc : Bool)
    (h1 : splitnArgs 2 cfg.body = [firstArg, listRaw])
    (h2 : splitnNotEscaped 3 firstArg ' ' = [var, ord, expr])
    (h3 : parseOrder ord = some desc)
    (h4 : ∀ c ∈ listRaw, PlainChar c)
    (h5 : ∀ c ∈ expr, PlainChar c)
    (h6 : varsGet st.vars var = none)
    (h7 : 2 ≤ (splitNotEscaped listRaw ':').length) :
    sortByHandler (processE (fuel + 1) reg) cfg st =
      .ok (joinReescapeColon
            ((if desc then
                (stableSortByKey ((splitNotEscaped listRaw ':').map (fun v => (v, expr)))).reverse
              else
                stableSortByKey ((splitNotEscaped listRaw ':').map (fun v => (v, expr)))).map
              Prod.fst),
           [],
           foldVarsInsert var (splitNotEscaped listRaw ':')
             { st with vars := varsRemove st.vars var }) ∧
    (varsGet (foldVarsInsert var (splitNotEscaped listRaw ':')
        { st with vars := varsRemove st.vars var }).vars var).isSome := by
  refine ⟨?_, foldVarsInsert_isSome _ _ _ (by intro hnil; rw [hnil] at h7; simp at h7)⟩
  unfold sortByHandler
  rw [h1]
  simp only [List.head?_cons]
  rw [h2]
  simp only [List.head?_cons]
  rw [h3]
  simp only [List.get?_cons_succ, List.get?_cons_zero]
  rw [show ctxProcess (processE (fuel + 1) reg) cfg.bodySpan st listRaw =
        .ok (listRaw, [], st) from by
    unfold ctxProcess
    rw [processE_plain (fuel + 1) reg st listRaw h4 (by omega)]
    simp [absorbNewIssues_nil]]
  simp only [h6]
  rw [sortByComputeKeys_plain (fuel + 1) reg cfg.bodySpan var expr h5 (by omega)]
  simp

/-- Witness for `c10_sort_var_amended` at `(%sort_by v - k:a:b%)` with no
variables bound. -/
theorem c10_sort_var_amended_witness :
    sortByHandler (processE 2 defaultRegistry) ⟨"v - k:a:b".data, ⟨5, 9⟩, ⟨0, 15⟩⟩ ⟨[]⟩ =
      .ok ("b:a".data, [], ⟨[("v".data, "b".data)]⟩) ∧
    (varsGet [("v".data, "b".data)] "v".data).isSome :=
  c10_sort_var_amended 1 defaultRegistry ⟨"v - k:a:b".data, ⟨5, 9⟩, ⟨0, 15⟩⟩ ⟨[]⟩
    "v - k".data "a:b".data "v".data "-".data "k".data true
    (by decide) (by decide) (by decide) (by decide) (by decide) (by decide) (by decide)

end Ppm
